import Mathlib

/-!
Shallow embedding of the graph visualization engine of `healui-labs`
(`src/components/GraphCanvasOptimized.tsx` and `src/store/graphStore.ts`).

Collections are Lean lists in the order the TypeScript code produces them;
JavaScript `Set` / `Map` lookups become list membership tests, `Map` key order
(first-insertion order) is modelled explicitly, and the float zoom factor is
modelled as a rational number.
-/

namespace HealuiGraph

/-- Graph node as used by the canvas: `id`, `label`, `type`, plus the
synthetic-cluster fields `isClusterNode` / `childNodes` that the component
attaches to cluster nodes (plain data nodes have the defaults). -/
structure NodeData where
  id : String
  label : String
  type : String
  isClusterNode : Bool := false
  childNodes : List String := []
deriving DecidableEq

/-- Graph edge: `id`, endpoint ids and relationship `type`. -/
structure EdgeData where
  id : String
  source : String
  target : String
  type : String
deriving DecidableEq

/-- Visibility mode of the canvas (`'all' | 'important' | 'filtered'`). -/
inductive VisibilityMode where
  | all
  | important
  | filtered
deriving DecidableEq

/-- Importance map of `GraphCanvasOptimized.tsx` lines 77-89: degree
centrality over the full edge list, built for every node of `data.nodes`;
the later lookup `nodeImportance.get(id) || 0` yields `0` for ids that are
not keys of the map. -/
def nodeImportance (nodes : List NodeData) (edges : List EdgeData) (i : String) : Nat :=
  if nodes.any (fun n => n.id == i) then
    (edges.filter (fun e => e.source == i || e.target == i)).length
  else 0

/-- Cluster key `cluster_${type}` used to group nodes by type. -/
def clusterKey (t : String) : String := "cluster_" ++ t

/-- First-occurrence deduplication of a key list, modelling the iteration
order of a JavaScript `Map`'s keys (keys appear in first-insertion order). -/
def dedupKeysAux (seen : List String) : List String → List String
  | [] => []
  | k :: rest =>
    if seen.contains k then dedupKeysAux seen rest
    else k :: dedupKeysAux (k :: seen) rest

/-- Key list of a JavaScript `Map` populated in list order. -/
def dedupKeys (l : List String) : List String := dedupKeysAux [] l

/-- Members of the type group stored under key `k` in the `clusters` map of
`clusteredData` (lines 101-110): nodes whose type is in the active node-type
set and whose `cluster_${type}` key equals `k`, in input order. -/
def groupMembers (nodeTypes : List String) (nodes : List NodeData) (k : String) :
    List NodeData :=
  nodes.filter (fun n => nodeTypes.contains n.type && (clusterKey n.type == k))

/-- Keys of the `clusters` map in insertion order. -/
def groupKeys (nodeTypes : List String) (nodes : List NodeData) : List String :=
  dedupKeys ((nodes.filter (fun n => nodeTypes.contains n.type)).map
    (fun n => clusterKey n.type))

/-- Synthetic cluster node built in lines 116-123 for a collapsed group. -/
def mkClusterNode (k : String) (members : List NodeData) : NodeData :=
  { id := k
    label := ((members.head?.map (fun n => n.type)).getD "") ++ " cluster (" ++
      toString members.length ++ ")"
    type := "cluster"
    isClusterNode := true
    childNodes := members.map (fun n => n.id) }

/-- Cluster-node list of `clusteredData` (lines 112-128): one synthetic node
per type group that is strictly larger than the threshold and not expanded. -/
def clusterNodesOf (nodeTypes expanded : List String) (threshold : Nat)
    (nodes : List NodeData) : List NodeData :=
  (groupKeys nodeTypes nodes).filterMap (fun k =>
    let ms := groupMembers nodeTypes nodes k
    if threshold < ms.length ∧ expanded.contains k = false then
      some (mkClusterNode k ms)
    else none)

/-- Remaining individual nodes of `clusteredData`: the `else` branch of the
`clusters.forEach` (lines 113-128) pushes whole un-collapsed groups in map
order, then the second `data.nodes.forEach` (lines 130-135) pushes every node
whose type is inactive or whose cluster key is expanded. -/
def remainingNodesOf (nodeTypes expanded : List String) (threshold : Nat)
    (nodes : List NodeData) : List NodeData :=
  ((groupKeys nodeTypes nodes).flatMap (fun k =>
    let ms := groupMembers nodeTypes nodes k
    if threshold < ms.length ∧ expanded.contains k = false then [] else ms))
  ++ nodes.filter (fun n =>
    !(nodeTypes.contains n.type) || expanded.contains (clusterKey n.type))

/-- Endpoint rewrite of lines 138-152: each cluster in turn replaces the
current endpoint value by the cluster id when the endpoint is a member. -/
def rewriteEndpoint (clusters : List NodeData) (s : String) : String :=
  clusters.foldl (fun cur c => if c.childNodes.contains cur then c.id else cur) s

/-- Edge list after rewriting both endpoints toward cluster nodes. -/
def rewriteEdges (clusters : List NodeData) (edges : List EdgeData) : List EdgeData :=
  edges.map (fun e =>
    { e with
      source := rewriteEndpoint clusters e.source
      target := rewriteEndpoint clusters e.target })

/-- Deduplication key `${e.source}-${e.target}` of line 156. -/
def edgeKey (e : EdgeData) : String := e.source ++ "-" ++ e.target

/-- Last edge carrying key `k`, the value a JavaScript `Map` holds after all
`[key, edge]` pairs have been inserted. -/
def lastWithKey (k : String) (edges : List EdgeData) : Option EdgeData :=
  (edges.filter (fun e => edgeKey e == k)).getLast?

/-- Deduplicated edge list of lines 154-157: `new Map(...).values()` keeps,
for each distinct key in first-occurrence order, the last edge with that key. -/
def dedupEdges (edges : List EdgeData) : List EdgeData :=
  (dedupKeys (edges.map edgeKey)).filterMap (fun k => lastWithKey k edges)

/-- Clustering reducer `clusteredData` (lines 92-163). The early return of
line 93 passes the collections through untouched; otherwise the output nodes
are `[...remainingNodes, ...clusterNodes]` and the output edges the rewritten,
key-deduplicated list. -/
def clusteredData (enableClustering : Bool) (threshold : Nat)
    (nodeTypes expanded : List String)
    (nodes : List NodeData) (edges : List EdgeData) :
    List NodeData × List EdgeData :=
  if enableClustering = false ∨ nodes.length < threshold then (nodes, edges)
  else
    let clusters := clusterNodesOf nodeTypes expanded threshold nodes
    (remainingNodesOf nodeTypes expanded threshold nodes ++ clusters,
     dedupEdges (rewriteEdges clusters edges))

/-- Substring test on character lists, the model of JavaScript
`String.prototype.includes`. -/
def hasSub (needle : List Char) : List Char → Bool
  | [] => needle.isEmpty
  | c :: rest => needle.isPrefixOf (c :: rest) || hasSub needle rest

/-- Case-insensitive label match of line 175:
`node.label.toLowerCase().includes(searchQuery.toLowerCase())`. -/
def labelMatches (query label : String) : Bool :=
  hasSub (query.data.map Char.toLower) (label.data.map Char.toLower)

/-- Search filter of `visibleData` (lines 170-184); `if (searchQuery)` is
JavaScript truthiness, so the empty query skips the step. -/
def searchStep (query : String) (nodes : List NodeData) (edges : List EdgeData) :
    List NodeData × List EdgeData :=
  if query = "" then (nodes, edges)
  else
    let matching := (nodes.filter (fun n => labelMatches query n.label)).map
      (fun n => n.id)
    (nodes.filter (fun n => matching.contains n.id),
     edges.filter (fun e => matching.contains e.source && matching.contains e.target))

/-- Type filter of lines 186-190: nodes pass when their type is active or
they are cluster nodes; edges pass on their own type only. -/
def typeStep (nodeTypes edgeTypes : List String)
    (nodes : List NodeData) (edges : List EdgeData) :
    List NodeData × List EdgeData :=
  (nodes.filter (fun n => nodeTypes.contains n.type || n.isClusterNode),
   edges.filter (fun e => edgeTypes.contains e.type))

/-- Descending stable sort by importance, the model of
`[...visibleNodes].sort((a, b) => (imp.get(b.id)||0) - (imp.get(a.id)||0))`
(ECMAScript sort is stable; insertion sort with a total preorder that holds
on ties realizes the same stable descending order). -/
def sortByImportance (imp : String → Nat) (nodes : List NodeData) : List NodeData :=
  List.insertionSort (fun a b => imp b.id ≤ imp a.id) nodes

/-- Importance cap of lines 192-204: in `important` mode with more nodes than
`maxVisibleNodes`, keep the nodes whose id is among the first
`maxVisibleNodes` ids of the descending sort, and the edges with both
endpoints kept. -/
def importanceStep (imp : String → Nat) (mode : VisibilityMode) (maxVisible : Nat)
    (nodes : List NodeData) (edges : List EdgeData) :
    List NodeData × List EdgeData :=
  if mode = VisibilityMode.important ∧ nodes.length > maxVisible then
    let topIds := ((sortByImportance imp nodes).take maxVisible).map (fun n => n.id)
    (nodes.filter (fun n => topIds.contains n.id),
     edges.filter (fun e => topIds.contains e.source && topIds.contains e.target))
  else (nodes, edges)

/-- Zoom cull of lines 206-213: below zoom `0.5` keep nodes whose importance
is at least `0.3 *` the maximum importance-map value, and cluster nodes.
The comparison `imp ≥ 0.3 * m` is encoded over naturals as `10 * imp ≥ 3 * m`.
With an empty importance map `Math.max()` is `-Infinity` and every node
passes, which the `none` branch models. -/
def zoomCull (imp : String → Nat) (allNodes : List NodeData) (zoom : ℚ)
    (nodes : List NodeData) : List NodeData :=
  if zoom < mkRat 1 2 then
    match (allNodes.map (fun n => imp n.id)).max? with
    | none => nodes
    | some m => nodes.filter (fun n => 10 * imp n.id ≥ 3 * m || n.isClusterNode)
  else nodes

/-- Visibility pipeline `visibleData` (lines 166-216) applied to the output of
the clustering reducer: search filter, type filter, importance cap, zoom cull.
The importance map is computed from the full store data (lines 77-89). -/
def visibleData (enableClustering : Bool) (threshold maxVisible : Nat)
    (nodeTypes edgeTypes expanded : List String) (query : String)
    (mode : VisibilityMode) (zoom : ℚ)
    (nodes : List NodeData) (edges : List EdgeData) :
    List NodeData × List EdgeData :=
  let imp := nodeImportance nodes edges
  let cd := clusteredData enableClustering threshold nodeTypes expanded nodes edges
  let s := searchStep query cd.1 cd.2
  let t := typeStep nodeTypes edgeTypes s.1 s.2
  let i := importanceStep imp mode maxVisible t.1 t.2
  (zoomCull imp nodes zoom i.1, i.2)

/-- Rendering detail tier chosen by `renderNodes` (lines 285-328). -/
inductive DetailTier where
  | full
  | reduced
deriving DecidableEq

/-- Tier selection: line 286 tests `zoomLevel > 0.7` for the full-detail
branch, otherwise the simplified branch renders small dots without labels. -/
def detailTier (zoom : ℚ) : DetailTier :=
  if zoom > mkRat 7 10 then DetailTier.full else DetailTier.reduced

/-- Selection state of `graphStore.ts`: the two id sets (insertion-ordered,
duplicate-free lists model the JavaScript `Set`s) and `lastSelected`. -/
structure Selection where
  selectedNodeIds : List String
  selectedEdgeIds : List String
  lastSelected : Option String
deriving DecidableEq

/-- Insertion into a JavaScript `Set`: no effect when already present,
appended at the end otherwise. -/
def setAdd (l : List String) (x : String) : List String :=
  if l.contains x then l else l ++ [x]

/-- Store action `selectNode` (graphStore.ts lines 178-186): without the
multi flag both id sets are cleared first, then the node id is added. -/
def selectNode (s : Selection) (nodeId : String) (multi : Bool) : Selection :=
  let s' := if multi then s
    else { s with selectedNodeIds := [], selectedEdgeIds := [] }
  { s' with
    selectedNodeIds := setAdd s'.selectedNodeIds nodeId
    lastSelected := some nodeId }

/-- Store action `selectEdge` (graphStore.ts lines 188-195), symmetric to
`selectNode`. -/
def selectEdge (s : Selection) (edgeId : String) (multi : Bool) : Selection :=
  let s' := if multi then s
    else { s with selectedNodeIds := [], selectedEdgeIds := [] }
  { s' with
    selectedEdgeIds := setAdd s'.selectedEdgeIds edgeId
    lastSelected := some edgeId }

/-- Store action `clearSelection` (graphStore.ts lines 197-201). -/
def clearSelection (_ : Selection) : Selection :=
  { selectedNodeIds := [], selectedEdgeIds := [], lastSelected := none }

/-! Concrete fixtures used to evaluate the pipeline on the spec's scenarios. -/

/-- Scenario node `A : condition`. -/
def nA : NodeData := { id := "A", label := "A", type := "condition" }

/-- Scenario node `B : exercise`. -/
def nB : NodeData := { id := "B", label := "B", type := "exercise" }

/-- Scenario node `C : equipment`. -/
def nC : NodeData := { id := "C", label := "C", type := "equipment" }

/-- Scenario edge `A→B (treats)`. -/
def eAB : EdgeData := { id := "eAB", source := "A", target := "B", type := "treats" }

/-- Scenario edge `B→C (requires)`. -/
def eBC : EdgeData := { id := "eBC", source := "B", target := "C", type := "requires" }

/-- Exercise node `e1`. -/
def x1 : NodeData := { id := "e1", label := "E1", type := "exercise" }

/-- Exercise node `e2`. -/
def x2 : NodeData := { id := "e2", label := "E2", type := "exercise" }

/-- Edge between the two exercise nodes. -/
def ed12 : EdgeData := { id := "ed", source := "e1", target := "e2", type := "treats" }

/-- Node whose id contains a hyphen, colliding with the edge-key separator. -/
def ka : NodeData := { id := "a-b", label := "ka", type := "t" }

/-- Plain node `c`. -/
def kb : NodeData := { id := "c", label := "kb", type := "t" }

/-- Plain node `a`. -/
def kc : NodeData := { id := "a", label := "kc", type := "t" }

/-- Node whose id contains a hyphen. -/
def kd : NodeData := { id := "b-c", label := "kd", type := "t" }

/-- Edge `a-b → c`; its dedup key is the string `a-b-c`. -/
def ke1 : EdgeData := { id := "ke1", source := "a-b", target := "c", type := "r" }

/-- Edge `a → b-c`; its dedup key is also `a-b-c`. -/
def ke2 : EdgeData := { id := "ke2", source := "a", target := "b-c", type := "r" }

/-- Builder for the 15-exercise-node scenario. -/
def exN (i : Nat) : NodeData :=
  { id := "ex" ++ toString i, label := "Ex", type := "exercise" }

/-- Fifteen exercise nodes. -/
def ns15 : List NodeData := (List.range 15).map exN

/-- Node used by the search-scenario witness. -/
def nW : NodeData := { id := "w", label := "Alpha", type := "condition" }

/-! Supporting lemmas about the deduplication and grouping combinators. -/

/-- Membership in `dedupKeysAux`: present in the tail and not yet seen. -/
theorem mem_dedupKeysAux (seen l : List String) (k : String) :
    k ∈ dedupKeysAux seen l ↔ k ∈ l ∧ k ∉ seen := by
  induction l generalizing seen with
  | nil => simp [dedupKeysAux]
  | cons a rest ih =>
    by_cases ha : seen.contains a = true
    · have ham : a ∈ seen := List.elem_iff.mp ha
      rw [dedupKeysAux, if_pos ha, ih]
      constructor
      · rintro ⟨h1, h2⟩
        exact ⟨List.mem_cons_of_mem _ h1, h2⟩
      · rintro ⟨h1, h2⟩
        rcases List.mem_cons.mp h1 with rfl | h1'
        · exact absurd ham h2
        · exact ⟨h1', h2⟩
    · have ham : a ∉ seen := fun hm => ha (List.elem_iff.mpr hm)
      rw [dedupKeysAux, if_neg ha]
      by_cases hk : k = a
      · subst hk
        simp [ham]
      · simp only [List.mem_cons, ih]
        constructor
        · rintro (rfl | ⟨h1, h2⟩)
          · exact absurd rfl hk
          · exact ⟨Or.inr h1, fun hs => h2 (Or.inr hs)⟩
        · rintro ⟨rfl | h1, h2⟩
          · exact absurd rfl hk
          · refine Or.inr ⟨h1, fun hs => ?_⟩
            rcases hs with rfl | hs'
            · exact hk rfl
            · exact h2 hs'

/-- The output of `dedupKeysAux` has no duplicates. -/
theorem nodup_dedupKeysAux (seen l : List String) : (dedupKeysAux seen l).Nodup := by
  induction l generalizing seen with
  | nil => simp [dedupKeysAux]
  | cons a rest ih =>
    rw [dedupKeysAux]
    by_cases ha : seen.contains a = true
    · rw [if_pos ha]; exact ih seen
    · rw [if_neg ha]
      refine List.nodup_cons.mpr ⟨fun hmem => ?_, ih (a :: seen)⟩
      exact ((mem_dedupKeysAux _ _ _).mp hmem).2 (List.mem_cons_self a seen)

/-- Membership in `dedupKeys` agrees with membership in the input list. -/
theorem mem_dedupKeys (l : List String) (k : String) : k ∈ dedupKeys l ↔ k ∈ l := by
  rw [dedupKeys, mem_dedupKeysAux]
  simp

/-- The deduplicated key list has no duplicates. -/
theorem nodup_dedupKeys (l : List String) : (dedupKeys l).Nodup :=
  nodup_dedupKeysAux [] l

/-- Filtering a key-indexed `filterMap` over duplicate-free keys isolates the
contribution of one key. -/
theorem filter_key_filterMap {β : Type} (key : β → String) (keys : List String)
    (hnd : keys.Nodup) (f : String → Option β)
    (hf : ∀ k c, f k = some c → key c = k) (k : String) :
    (keys.filterMap f).filter (fun c => key c == k) =
      if k ∈ keys then (f k).toList else [] := by
  induction keys with
  | nil => simp
  | cons a rest ih =>
    obtain ⟨hna, hndr⟩ := List.nodup_cons.mp hnd
    rw [List.filterMap_cons]
    cases hfa : f a with
    | none =>
      rw [ih hndr]
      by_cases hak : k = a
      · subst hak
        rw [if_neg hna, if_pos (List.mem_cons_self _ _), hfa]
        rfl
      · simp [List.mem_cons, hak]
    | some c =>
      have hkey := hf a c hfa
      rw [List.filter_cons, ih hndr]
      by_cases hak : k = a
      · subst hak
        have hbeq : (key c == k) = true := by simp [hkey]
        rw [if_neg hna, if_pos (List.mem_cons_self _ _), hfa, hbeq]
        simp
      · have hbeq : (key c == k) = false := by
          simp only [beq_eq_false_iff_ne, ne_eq, hkey]
          exact fun h => hak h.symm
        rw [hbeq]
        simp [List.mem_cons, hak]

/-- Count of elements with a given key in a key-indexed `filterMap`. -/
theorem countP_key_filterMap {β : Type} (key : β → String) (keys : List String)
    (hnd : keys.Nodup) (f : String → Option β)
    (hf : ∀ k c, f k = some c → key c = k) (k : String) :
    (keys.filterMap f).countP (fun c => key c == k) =
      if k ∈ keys ∧ (f k).isSome = true then 1 else 0 := by
  rw [List.countP_eq_length_filter, filter_key_filterMap key keys hnd f hf k]
  by_cases hk : k ∈ keys
  · cases hfk : f k with
    | none => simp [hk, hfk]
    | some c => simp [hk, hfk]
  · simp [hk]

/-- The value stored for a key by the edge-dedup map carries that key. -/
theorem lastWithKey_key (k : String) (es : List EdgeData) (e : EdgeData)
    (h : lastWithKey k es = some e) : edgeKey e = k := by
  have hm : e ∈ es.filter (fun e => edgeKey e == k) := List.mem_of_mem_getLast? h
  simpa using (List.mem_filter.mp hm).2

/-- A key present in the edge list has a stored value. -/
theorem lastWithKey_isSome (k : String) (es : List EdgeData)
    (h : k ∈ es.map edgeKey) : (lastWithKey k es).isSome = true := by
  rw [lastWithKey, List.getLast?_isSome]
  intro hnil
  obtain ⟨e, he, hk⟩ := List.mem_map.mp h
  have : e ∈ es.filter (fun e => edgeKey e == k) :=
    List.mem_filter.mpr ⟨he, by simp [hk]⟩
  simp [hnil] at this

/-- Each key of the input occurs exactly once among the deduplicated edges. -/
theorem countP_dedupEdges (es : List EdgeData) (k : String) :
    (dedupEdges es).countP (fun e => edgeKey e == k) =
      if k ∈ es.map edgeKey then 1 else 0 := by
  rw [dedupEdges, countP_key_filterMap edgeKey _ (nodup_dedupKeys _) _
    (fun k' c h => lastWithKey_key k' es c h) k]
  by_cases hk : k ∈ es.map edgeKey
  · rw [if_pos ⟨(mem_dedupKeys _ _).mpr hk, lastWithKey_isSome k es hk⟩, if_pos hk]
  · rw [if_neg (fun h => hk ((mem_dedupKeys _ _).mp h.1)), if_neg hk]

/-- Deduplication preserves exactly the set of keys. -/
theorem mem_edgeKey_dedupEdges (es : List EdgeData) (k : String) :
    k ∈ (dedupEdges es).map edgeKey ↔ k ∈ es.map edgeKey := by
  constructor
  · intro h
    obtain ⟨e, he, rfl⟩ := List.mem_map.mp h
    obtain ⟨k', _, hf⟩ := List.mem_filterMap.mp he
    exact List.mem_map.mpr
      ⟨e, (List.mem_filter.mp (List.mem_of_mem_getLast? hf)).1, rfl⟩
  · intro h
    have hs := lastWithKey_isSome k es h
    obtain ⟨e, he⟩ := Option.isSome_iff_exists.mp hs
    exact List.mem_map.mpr ⟨e, List.mem_filterMap.mpr
      ⟨k, (mem_dedupKeys _ _).mpr h, he⟩, lastWithKey_key k es e he⟩

/-- The `cluster_` prefix makes cluster keys injective in the node type. -/
theorem clusterKey_inj {t t' : String} (h : clusterKey t = clusterKey t') : t = t' := by
  unfold clusterKey at h
  have hd := congrArg String.data h
  rw [String.data_append, String.data_append] at hd
  have := List.append_cancel_left hd
  cases t
  cases t'
  simp_all

/-- For an active type, the group under its cluster key is exactly the list
of nodes of that type. -/
theorem groupMembers_active (nodeTypes : List String) (nodes : List NodeData)
    (t : String) (ht : nodeTypes.contains t = true) :
    groupMembers nodeTypes nodes (clusterKey t) =
      nodes.filter (fun n => n.type == t) := by
  unfold groupMembers
  apply List.filter_congr
  intro n _
  by_cases h : n.type = t
  · rw [h]
    have htm : t ∈ nodeTypes := List.elem_iff.mp ht
    simp [htm]
  · have hck : (clusterKey n.type == clusterKey t) = false :=
      beq_eq_false_iff_ne.mpr (fun hc => h (clusterKey_inj hc))
    have hnt : (n.type == t) = false := beq_eq_false_iff_ne.mpr h
    rw [hck, hnt, Bool.and_false]

/-- Cluster keys of the group map. -/
theorem mem_groupKeys (nodeTypes : List String) (nodes : List NodeData) (k : String) :
    k ∈ groupKeys nodeTypes nodes ↔
      ∃ n ∈ nodes, nodeTypes.contains n.type = true ∧ clusterKey n.type = k := by
  rw [groupKeys, mem_dedupKeys]
  simp only [List.mem_map, List.mem_filter]
  constructor
  · rintro ⟨n, ⟨hn, hc⟩, hk⟩
    exact ⟨n, hn, hc, hk⟩
  · rintro ⟨n, hn, hc, hk⟩
    exact ⟨n, ⟨hn, hc⟩, hk⟩

/-- C5: a same-type group of un-expanded active-type nodes is collapsed into
exactly one synthetic cluster node, recording all member ids as `childNodes`,
if and only if its size strictly exceeds `clusterThreshold`; a group of
exactly threshold size is left un-clustered. The filter of the reducer's
cluster-node list at the type's cluster key is a singleton exactly when the
strict threshold test passes and the cluster is not expanded, and the
singleton's `childNodes` are the ids of all group members. -/
theorem C5_clusterThresholdIff (nodeTypes expanded : List String) (threshold : Nat)
    (nodes : List NodeData) (t : String) (ht : nodeTypes.contains t = true) :
    (clusterNodesOf nodeTypes expanded threshold nodes).filter
        (fun c => c.id == clusterKey t) =
      if threshold < (nodes.filter (fun n => n.type == t)).length ∧
          expanded.contains (clusterKey t) = false then
        [mkClusterNode (clusterKey t) (nodes.filter (fun n => n.type == t))]
      else [] := by
  have hf : ∀ k c, (fun k =>
      let ms := groupMembers nodeTypes nodes k
      if threshold < ms.length ∧ expanded.contains k = false then
        some (mkClusterNode k ms)
      else none) k = some c → c.id = k := by
    intro k c hc
    simp only at hc
    split at hc
    · cases hc
      rfl
    · cases hc
  have hnd : (groupKeys nodeTypes nodes).Nodup := by
    rw [groupKeys]
    exact nodup_dedupKeys _
  rw [clusterNodesOf]
  refine Eq.trans (filter_key_filterMap (fun c : NodeData => c.id)
    (groupKeys nodeTypes nodes) hnd _ hf (clusterKey t)) ?_
  simp only [groupMembers_active nodeTypes nodes t ht]
  by_cases hc : threshold < (nodes.filter (fun n => n.type == t)).length ∧
      expanded.contains (clusterKey t) = false
  · have hne : (nodes.filter (fun n => n.type == t)) ≠ [] := by
      intro hnil
      rw [hnil] at hc
      exact absurd hc.1 (by simp)
    obtain ⟨n, hn⟩ := List.exists_mem_of_ne_nil _ hne
    have hnn := List.mem_filter.mp hn
    have htyp : n.type = t := by simpa using hnn.2
    have hmem : clusterKey t ∈ groupKeys nodeTypes nodes :=
      (mem_groupKeys _ _ _).mpr ⟨n, hnn.1, by rw [htyp]; exact ⟨ht, rfl⟩⟩
    rw [if_pos hmem, if_pos hc, if_pos hc]
    rfl
  · rw [if_neg hc]
    by_cases hmem : clusterKey t ∈ groupKeys nodeTypes nodes
    · rw [if_pos hmem, if_neg hc]
      rfl
    · rw [if_neg hmem, if_neg hc]

/-- Witness for C5 at the spec scenario: 15 exercise nodes, threshold 10,
nothing expanded — one cluster node carrying all 15 ids replaces the group. -/
theorem C5_clusterThresholdIff_witness :
    ((clusterNodesOf ["exercise"] [] 10 ns15).filter
        (fun c => c.id == clusterKey "exercise") =
      [mkClusterNode (clusterKey "exercise") ns15]) ∧
    (clusteredData true 10 ["exercise"] [] ns15 []).1
      = [mkClusterNode "cluster_exercise" ns15] ∧
    (mkClusterNode "cluster_exercise" ns15).childNodes.length = 15 := by
  refine ⟨?_, by decide, by decide⟩
  rw [C5_clusterThresholdIff ["exercise"] [] 10 ns15 "exercise" (by decide)]
  decide

/-- C1: evaluation of the visibility pipeline on the spec's 3-node scenario
with the `equipment` type removed from the active node-type set. The node set
is `{A, B}` as the claim demands, but the edge set still contains `B→C`
(its type `requires` is in the active edge-type set and the type-filter step
prunes edges by edge type only), so the produced subset has a dangling edge
whose target `C` is absent from the produced node set — the code violates the
claimed invariant. -/
theorem C1_danglingEdgeKept :
    ((visibleData true 10 100 ["condition", "exercise"] ["treats", "requires"] []
        "" VisibilityMode.important 1 [nA, nB, nC] [eAB, eBC]).1.map
        (fun n => n.id) = ["A", "B"]) ∧
    ((visibleData true 10 100 ["condition", "exercise"] ["treats", "requires"] []
        "" VisibilityMode.important 1 [nA, nB, nC] [eAB, eBC]).2 = [eAB, eBC]) ∧
    (∃ e ∈ (visibleData true 10 100 ["condition", "exercise"] ["treats", "requires"]
        [] "" VisibilityMode.important 1 [nA, nB, nC] [eAB, eBC]).2,
      e.target = "C" ∧
      ∀ n ∈ (visibleData true 10 100 ["condition", "exercise"] ["treats", "requires"]
        [] "" VisibilityMode.important 1 [nA, nB, nC] [eAB, eBC]).1,
        n.id ≠ "C") := by
  decide

/-- C2: evaluation of the clustering reducer with the group's cluster id in
`expandedClusters`. The group pass re-adds the expanded group and the re-add
pass adds every expanded node again, so each node of the expanded cluster
appears twice in the reducer's output, contradicting the claim that no node
id appears more than once. -/
theorem C2_expandedClusterDuplicates :
    ((clusteredData true 1 ["exercise"] ["cluster_exercise"] [x1, x2] []).1
      = [x1, x2, x1, x2]) ∧
    ((clusteredData true 1 ["exercise"] ["cluster_exercise"] [x1, x2] []).1.countP
      (fun n => n.id == "e1") = 2) := by
  decide

/-- C3 counterexample: an edge internal to a collapsed group is rewritten to
a self-loop on the cluster node and is NOT dropped — the reducer's output for
this input is exactly that self-loop edge, refuting the claim that such edges
never appear in the output. -/
theorem C3_selfLoopRetained :
    ((clusteredData true 1 ["exercise"] [] [x1, x2] [ed12]).2
      = [{ ed12 with source := "cluster_exercise", target := "cluster_exercise" }]) ∧
    (∃ e ∈ (clusteredData true 1 ["exercise"] [] [x1, x2] [ed12]).2,
      e.source = e.target ∧ e.source = clusterKey "exercise" ∧
      ∃ c ∈ (clusteredData true 1 ["exercise"] [] [x1, x2] [ed12]).1,
        c.isClusterNode = true ∧ c.id = e.source) := by
  decide

/-- C10 counterexample: the dedup key is the concatenated string
`source ++ "-" ++ target`, so the distinct pairs `(a-b, c)` and `(a, b-c)`
collide on the key `a-b-c`; only the last edge survives and the pair
`(a-b, c)` loses its representative entirely, refuting "keeping one
representative per (source,target) pair". -/
theorem C10_pairRepresentativeLost :
    ((clusteredData true 1 [] [] [ka, kb, kc, kd] [ke1, ke2]).2 = [ke2]) ∧
    ke1 ∈ rewriteEdges (clusterNodesOf [] [] 1 [ka, kb, kc, kd]) [ke1, ke2] ∧
    ke1.source = "a-b" ∧ ke1.target = "c" ∧
    (∀ e ∈ (clusteredData true 1 [] [] [ka, kb, kc, kd] [ke1, ke2]).2,
      ¬(e.source = "a-b" ∧ e.target = "c")) := by
  decide

/-- C4 counterexample: the code tests `zoomLevel > 0.7` strictly, so at zoom
exactly `0.7` — which satisfies the claim's `zoom ≥ 0.7` — the reduced-detail
branch is taken, not full detail. -/
theorem C4_boundaryReduced :
    mkRat 7 10 ≤ mkRat 7 10 ∧ detailTier (mkRat 7 10) = DetailTier.reduced := by
  constructor
  · exact le_refl _
  · rw [detailTier, if_neg (lt_irrefl _)]

/-- C4 amended: the rendering detail tier is a pure function of zoom with a
strict boundary — full detail exactly when `zoom > 0.7`, reduced detail
otherwise (including at exactly `0.7`); equal zooms always yield the same
tier. -/
theorem C4_strictTier (z : ℚ) :
    (detailTier z = DetailTier.full ↔ mkRat 7 10 < z) ∧
    (∀ z' : ℚ, z = z' → detailTier z = detailTier z') := by
  constructor
  · rw [detailTier]
    by_cases h : mkRat 7 10 < z
    · simp [h]
    · simp [h]
  · intro z' h
    rw [h]

/-- Witness for C4 amended at zoom `1`. -/
theorem C4_strictTier_witness :
    mkRat 7 10 < (1 : ℚ) ∧ detailTier 1 = DetailTier.full :=
  ⟨by decide, (C4_strictTier 1).1.mpr (by decide)⟩

/-- C7: the clustering reducer is a pure function — two runs on equal node
and edge collections, equal active node-type sets, equal thresholds and equal
`expandedClusters` states produce identical cluster nodes, identical
remaining nodes and identical rewritten edges. -/
theorem C7_deterministic (en en' : Bool) (th th' : Nat)
    (nt nt' ex ex' : List String) (ns ns' : List NodeData) (es es' : List EdgeData)
    (h1 : en = en') (h2 : th = th') (h3 : nt = nt') (h4 : ex = ex')
    (h5 : ns = ns') (h6 : es = es') :
    clusteredData en th nt ex ns es = clusteredData en' th' nt' ex' ns' es' := by
  rw [h1, h2, h3, h4, h5, h6]

/-- Witness for C7 on a concrete run. -/
theorem C7_deterministic_witness :
    clusteredData true 1 ["exercise"] [] [x1, x2] [ed12]
      = clusteredData true 1 ["exercise"] [] [x1, x2] [ed12] :=
  C7_deterministic true true 1 1 ["exercise"] ["exercise"] [] [] [x1, x2] [x1, x2]
    [ed12] [ed12] rfl rfl rfl rfl rfl rfl

/-- C9: a non-multi `selectNode` clears both id sets before adding, leaving
exactly the one node id and no edge ids; `selectEdge` is symmetric. -/
theorem C9_singleSelect (s : Selection) (i : String) :
    (selectNode s i false).selectedNodeIds = [i] ∧
    (selectNode s i false).selectedEdgeIds = [] ∧
    (selectEdge s i false).selectedEdgeIds = [i] ∧
    (selectEdge s i false).selectedNodeIds = [] :=
  ⟨rfl, rfl, rfl, rfl⟩

/-- C3 amended: on the clustering path, intra-cluster edges become self-loops
on the cluster node and survive; the final deduplication keeps exactly one
output edge per dedup key present in the rewritten list, so a cluster with
internal edges contributes exactly one self-loop edge to the output. -/
theorem C3_oneEdgePerKey (nt ex : List String) (th : Nat)
    (ns : List NodeData) (es : List EdgeData) (k : String)
    (h1 : th ≤ ns.length)
    (h2 : k ∈ (rewriteEdges (clusterNodesOf nt ex th ns) es).map edgeKey) :
    (clusteredData true th nt ex ns es).2.countP (fun e => edgeKey e == k) = 1 := by
  rw [clusteredData, if_neg (by
    rintro (h | h)
    · cases h
    · exact absurd h (Nat.not_lt.mpr h1))]
  rw [countP_dedupEdges, if_pos h2]

/-- Witness for C3 amended: the intra-cluster edge of the counterexample
input yields exactly one self-loop on the cluster node. -/
theorem C3_oneEdgePerKey_witness :
    (clusteredData true 1 ["exercise"] [] [x1, x2] [ed12]).2.countP
      (fun e => edgeKey e == "cluster_exercise-cluster_exercise") = 1 :=
  C3_oneEdgePerKey ["exercise"] [] 1 [x1, x2] [ed12]
    "cluster_exercise-cluster_exercise" (by decide) (by decide)

/-- C10 amended: when clustering is disabled or the node count is strictly
below the threshold the reducer returns its input exactly (duplicate edges
included); every run that takes the clustering path deduplicates the
rewritten edge list by the concatenated key `source ++ "-" ++ target`, keeping
at most one edge per key and keeping every key that occurs — which coincides
with per-(source,target) deduplication only when keys do not collide across
distinct pairs. -/
theorem C10_passthroughAndKeyDedup (en : Bool) (th : Nat) (nt ex : List String)
    (ns : List NodeData) (es : List EdgeData) :
    (en = false ∨ ns.length < th → clusteredData en th nt ex ns es = (ns, es)) ∧
    (en = true → th ≤ ns.length →
      (∀ k, (clusteredData en th nt ex ns es).2.countP
        (fun e => edgeKey e == k) ≤ 1) ∧
      (∀ k, k ∈ (clusteredData en th nt ex ns es).2.map edgeKey ↔
        k ∈ (rewriteEdges (clusterNodesOf nt ex th ns) es).map edgeKey)) := by
  constructor
  · intro h
    rw [clusteredData, if_pos h]
  · rintro rfl hth
    rw [clusteredData, if_neg (by
      rintro (h | h)
      · cases h
      · exact absurd h (Nat.not_lt.mpr hth))]
    constructor
    · intro k
      rw [countP_dedupEdges]
      by_cases hk : k ∈ (rewriteEdges (clusterNodesOf nt ex th ns) es).map edgeKey
      · rw [if_pos hk]
      · rw [if_neg hk]
        exact Nat.zero_le 1
    · intro k
      exact mem_edgeKey_dedupEdges _ k

/-- Witness for C10 amended: the pass-through case preserves a duplicated
edge verbatim, and the clustering path keeps at most one edge for the
colliding key `a-b-c`. -/
theorem C10_passthroughAndKeyDedup_witness :
    clusteredData true 10 [] [] [ka] [ke1, ke1] = ([ka], [ke1, ke1]) ∧
    (clusteredData true 1 [] [] [ka, kb, kc, kd] [ke1, ke2]).2.countP
      (fun e => edgeKey e == "a-b-c") ≤ 1 :=
  ⟨(C10_passthroughAndKeyDedup true 10 [] [] [ka] [ke1, ke1]).1
      (Or.inr (by decide)),
   ((C10_passthroughAndKeyDedup true 1 [] [] [ka, kb, kc, kd] [ke1, ke2]).2
      rfl (by decide)).1 "a-b-c"⟩

/-- Keys of a keep-list filter are exactly the keep-list, provided every kept
key indeed occurs among the list's keys. -/
theorem mem_map_filter_contains {α : Type} (key : α → String) (l : List α)
    (ids : List String) (hsub : ∀ x ∈ ids, x ∈ l.map key) (x : String) :
    x ∈ (l.filter (fun a => ids.contains (key a))).map key ↔ x ∈ ids := by
  constructor
  · intro hx
    obtain ⟨a, haf, rfl⟩ := List.mem_map.mp hx
    exact List.elem_iff.mp (List.mem_filter.mp haf).2
  · intro hx
    obtain ⟨a, hal, hak⟩ := List.mem_map.mp (hsub x hx)
    exact List.mem_map.mpr
      ⟨a, List.mem_filter.mpr ⟨hal, List.elem_iff.mpr (by rw [hak]; exact hx)⟩, hak⟩

/-- Filtering a duplicate-free-keyed list down to a duplicate-free keep-list
of present keys retains exactly one element per kept key. -/
theorem length_filter_mem_of_nodup {α : Type} (key : α → String) (l : List α)
    (hnd : (l.map key).Nodup) (ids : List String) (hids : ids.Nodup)
    (hsub : ∀ x ∈ ids, x ∈ l.map key) :
    (l.filter (fun a => ids.contains (key a))).length = ids.length := by
  have hndf : ((l.filter (fun a => ids.contains (key a))).map key).Nodup :=
    ((List.filter_sublist _).map key).nodup hnd
  have hfin : ((l.filter (fun a => ids.contains (key a))).map key).toFinset
      = ids.toFinset := by
    apply Finset.ext
    intro x
    rw [List.mem_toFinset, List.mem_toFinset, mem_map_filter_contains key l ids hsub]
  have h1 := List.toFinset_card_of_nodup hndf
  have h2 := List.toFinset_card_of_nodup hids
  rw [hfin, h2] at h1
  calc (l.filter (fun a => ids.contains (key a))).length
      = ((l.filter (fun a => ids.contains (key a))).map key).length :=
        (List.length_map _ _).symm
    _ = ids.length := h1.symm

/-- The importance sort permutes its input. -/
theorem sortByImportance_perm (imp : String → Nat) (nodes : List NodeData) :
    (sortByImportance imp nodes).Perm nodes :=
  List.perm_insertionSort _ nodes

/-- The importance sort is pairwise descending in importance. -/
theorem sortByImportance_pairwise (imp : String → Nat) (nodes : List NodeData) :
    (sortByImportance imp nodes).Pairwise (fun a b => imp b.id ≤ imp a.id) := by
  have hres := @List.sorted_insertionSort NodeData (fun a b => imp b.id ≤ imp a.id)
    (fun a b => Nat.decLe _ _)
    ⟨fun a b => Nat.le_total (imp b.id) (imp a.id)⟩
    ⟨fun a b c h1 h2 => Nat.le_trans h2 h1⟩ nodes
  exact hres

/-- Below or at the cap, the importance step is the identity in any mode. -/
theorem importanceStep_noop (imp : String → Nat) (mode : VisibilityMode)
    (maxV : Nat) (nodes : List NodeData) (edges : List EdgeData)
    (h : ¬ maxV < nodes.length) :
    importanceStep imp mode maxV nodes edges = (nodes, edges) := by
  unfold importanceStep
  rw [if_neg (fun hc => h hc.2)]

/-- Above the cap in `important` mode: exactly `maxV` nodes survive, every
survivor's importance dominates every pruned node's importance, and the
surviving edges are exactly those with both endpoint ids among the surviving
node ids. -/
theorem importanceStep_gt (imp : String → Nat) (maxV : Nat)
    (nodes : List NodeData) (edges : List EdgeData)
    (hnd : (nodes.map (fun n => n.id)).Nodup) (h : maxV < nodes.length) :
    (importanceStep imp VisibilityMode.important maxV nodes edges).1.length = maxV ∧
    (∀ a ∈ (importanceStep imp VisibilityMode.important maxV nodes edges).1,
      ∀ b ∈ nodes,
        b ∉ (importanceStep imp VisibilityMode.important maxV nodes edges).1 →
        imp b.id ≤ imp a.id) ∧
    (∀ e, e ∈ (importanceStep imp VisibilityMode.important maxV nodes edges).2 ↔
      e ∈ edges ∧
      e.source ∈ (importanceStep imp VisibilityMode.important maxV
        nodes edges).1.map (fun n => n.id) ∧
      e.target ∈ (importanceStep imp VisibilityMode.important maxV
        nodes edges).1.map (fun n => n.id)) := by
  have hstep : importanceStep imp VisibilityMode.important maxV nodes edges =
      (nodes.filter (fun n =>
        (((sortByImportance imp nodes).take maxV).map
          (fun n => n.id)).contains n.id),
       edges.filter (fun e =>
        (((sortByImportance imp nodes).take maxV).map
          (fun n => n.id)).contains e.source
        && (((sortByImportance imp nodes).take maxV).map
          (fun n => n.id)).contains e.target)) := by
    unfold importanceStep
    rw [if_pos ⟨rfl, h⟩]
  rw [hstep]
  have hperm := sortByImportance_perm imp nodes
  have hpw := sortByImportance_pairwise imp nodes
  have hlen : (sortByImportance imp nodes).length = nodes.length := hperm.length_eq
  have htake_sub := List.take_sublist maxV (sortByImportance imp nodes)
  have htop_sub := htake_sub.map (fun n : NodeData => n.id)
  have hperm_ids := hperm.map (fun n : NodeData => n.id)
  have hnd_sorted : ((sortByImportance imp nodes).map (fun n => n.id)).Nodup :=
    hperm_ids.nodup_iff.mpr hnd
  have hnd_top : (((sortByImportance imp nodes).take maxV).map
      (fun n => n.id)).Nodup := htop_sub.nodup hnd_sorted
  have htop_len : (((sortByImportance imp nodes).take maxV).map
      (fun n => n.id)).length = maxV := by
    rw [List.length_map, List.length_take, hlen]
    exact Nat.min_eq_left (Nat.le_of_lt h)
  have htop_ids_sub : ∀ x ∈ ((sortByImportance imp nodes).take maxV).map
      (fun n => n.id), x ∈ nodes.map (fun n => n.id) :=
    fun x hx => hperm_ids.mem_iff.mp (htop_sub.subset hx)
  refine ⟨?_, ?_, ?_⟩
  · exact (length_filter_mem_of_nodup (fun n => n.id) nodes hnd _ hnd_top
      htop_ids_sub).trans htop_len
  · intro a ha b hb hnb
    have ha' := List.mem_filter.mp ha
    have haid : a.id ∈ ((sortByImportance imp nodes).take maxV).map
        (fun n => n.id) := List.elem_iff.mp ha'.2
    have hbid : b.id ∉ ((sortByImportance imp nodes).take maxV).map
        (fun n => n.id) := by
      intro hin
      exact hnb (List.mem_filter.mpr ⟨hb, List.elem_iff.mpr hin⟩)
    obtain ⟨a', ha'take, haeq⟩ := List.mem_map.mp haid
    have ha'nodes : a' ∈ nodes := hperm.mem_iff.mp (htake_sub.subset ha'take)
    have haa : a' = a := List.inj_on_of_nodup_map hnd ha'nodes ha'.1 haeq
    have hbsorted : b ∈ sortByImportance imp nodes := hperm.mem_iff.mpr hb
    have hbdrop : b ∈ (sortByImportance imp nodes).drop maxV := by
      rw [← List.take_append_drop maxV (sortByImportance imp nodes)] at hbsorted
      rcases List.mem_append.mp hbsorted with h1 | h2
      · exact absurd (List.mem_map_of_mem (fun n => n.id) h1) hbid
      · exact h2
    have hpw2 : ((sortByImportance imp nodes).take maxV ++
        (sortByImportance imp nodes).drop maxV).Pairwise
        (fun a b => imp b.id ≤ imp a.id) := by
      rw [List.take_append_drop]
      exact hpw
    exact (List.pairwise_append.mp hpw2).2.2 a (haa ▸ ha'take) b hbdrop
  · intro e
    simp only [List.mem_filter, Bool.and_eq_true]
    constructor
    · rintro ⟨he, hs, ht2⟩
      exact ⟨he,
        (mem_map_filter_contains (fun n => n.id) nodes _ htop_ids_sub
          e.source).mpr (List.elem_iff.mp hs),
        (mem_map_filter_contains (fun n => n.id) nodes _ htop_ids_sub
          e.target).mpr (List.elem_iff.mp ht2)⟩
    · rintro ⟨he, hs, ht2⟩
      exact ⟨he,
        List.elem_iff.mpr ((mem_map_filter_contains (fun n => n.id) nodes _
          htop_ids_sub e.source).mp hs),
        List.elem_iff.mpr ((mem_map_filter_contains (fun n => n.id) nodes _
          htop_ids_sub e.target).mp ht2)⟩

/-- C6: with the degree-based importance scorer, `important` mode passes the
filtered sets through unchanged whenever the node count is within
`maxVisibleNodes`; above the cap exactly `maxVisibleNodes` nodes survive,
every survivor ranks at least as high as every pruned node, and precisely the
edges with both endpoints surviving are kept. -/
theorem C6_importanceCap (allNodes : List NodeData) (allEdges : List EdgeData)
    (maxVisible : Nat) (nodes : List NodeData) (edges : List EdgeData)
    (hnd : (nodes.map (fun n => n.id)).Nodup) :
    (nodes.length ≤ maxVisible →
      importanceStep (nodeImportance allNodes allEdges) VisibilityMode.important
        maxVisible nodes edges = (nodes, edges)) ∧
    (maxVisible < nodes.length →
      (importanceStep (nodeImportance allNodes allEdges) VisibilityMode.important
        maxVisible nodes edges).1.length = maxVisible ∧
      (∀ a ∈ (importanceStep (nodeImportance allNodes allEdges)
          VisibilityMode.important maxVisible nodes edges).1,
        ∀ b ∈ nodes,
          b ∉ (importanceStep (nodeImportance allNodes allEdges)
            VisibilityMode.important maxVisible nodes edges).1 →
          nodeImportance allNodes allEdges b.id ≤
            nodeImportance allNodes allEdges a.id) ∧
      (∀ e, e ∈ (importanceStep (nodeImportance allNodes allEdges)
          VisibilityMode.important maxVisible nodes edges).2 ↔
        e ∈ edges ∧
        e.source ∈ (importanceStep (nodeImportance allNodes allEdges)
          VisibilityMode.important maxVisible nodes edges).1.map (fun n => n.id) ∧
        e.target ∈ (importanceStep (nodeImportance allNodes allEdges)
          VisibilityMode.important maxVisible nodes edges).1.map
          (fun n => n.id))) :=
  ⟨fun hle => importanceStep_noop _ _ _ _ _ (Nat.not_lt.mpr hle),
   fun hgt => importanceStep_gt _ maxVisible nodes edges hnd hgt⟩

/-- Witness for C6 on a 3-node graph with cap 2. -/
theorem C6_importanceCap_witness :
    (importanceStep (nodeImportance [nA, nB, nC] [eAB, eBC])
      VisibilityMode.important 2 [nA, nB, nC] [eAB, eBC]).1.length = 2 :=
  ((C6_importanceCap [nA, nB, nC] [eAB, eBC] 2 [nA, nB, nC] [eAB, eBC]
    (by decide)).2 (by decide)).1

/-- The clustering reducer maps an empty graph to an empty graph. -/
theorem clusteredData_empty (en : Bool) (th : Nat) (nt ex : List String) :
    clusteredData en th nt ex [] [] = ([], []) := by
  rw [clusteredData]
  split
  · rfl
  · rfl

/-- The search filter maps an empty graph to an empty graph. -/
theorem searchStep_nil (q : String) : searchStep q [] [] = ([], []) := by
  unfold searchStep
  split
  · rfl
  · rfl

/-- The type filter maps an empty graph to an empty graph. -/
theorem typeStep_nil (nt et : List String) : typeStep nt et [] [] = ([], []) := rfl

/-- The importance cap maps an empty graph to an empty graph. -/
theorem importanceStep_nil (imp : String → Nat) (mode : VisibilityMode)
    (maxV : Nat) : importanceStep imp mode maxV [] [] = ([], []) := by
  unfold importanceStep
  rw [if_neg (fun hc => Nat.not_lt_zero _ hc.2)]

/-- The zoom cull maps an empty node list to an empty node list. -/
theorem zoomCull_nil (imp : String → Nat) (allNodes : List NodeData) (zoom : ℚ) :
    zoomCull imp allNodes zoom [] = [] := by
  unfold zoomCull
  split
  · cases hx : (allNodes.map (fun n => imp n.id)).max? <;> simp
  · rfl

/-- C8: a non-empty search query matching no label of the clustered node list
makes the visibility pipeline return an empty node set and an empty edge set;
and on an empty input graph the pipeline returns empty sets for every filter
state. The embedding is a total function, so in both cases the engine
produces an empty render instead of failing. -/
theorem C8_emptySearchResult (en : Bool) (th maxV : Nat) (nt et ex : List String)
    (query : String) (mode : VisibilityMode) (zoom : ℚ)
    (ns : List NodeData) (es : List EdgeData)
    (hq : query ≠ "")
    (hm : ∀ n ∈ (clusteredData en th nt ex ns es).1,
      labelMatches query n.label = false) :
    visibleData en th maxV nt et ex query mode zoom ns es = ([], []) ∧
    (∀ (q' : String) (mode' : VisibilityMode) (zoom' : ℚ),
      visibleData en th maxV nt et ex q' mode' zoom' [] [] = ([], [])) := by
  constructor
  · have hmatch : (clusteredData en th nt ex ns es).1.filter
        (fun n => labelMatches query n.label) = [] :=
      List.filter_eq_nil_iff.mpr (fun n hn => by simp [hm n hn])
    have hsearch : searchStep query (clusteredData en th nt ex ns es).1
        (clusteredData en th nt ex ns es).2 = ([], []) := by
      unfold searchStep
      rw [if_neg hq, hmatch]
      simp
    unfold visibleData
    simp only []
    rw [hsearch]
    simp only [typeStep_nil, importanceStep_nil, zoomCull_nil]
  · intro q' mode' zoom'
    unfold visibleData
    simp only []
    rw [clusteredData_empty]
    simp only [searchStep_nil, typeStep_nil, importanceStep_nil, zoomCull_nil]

/-- Witness for C8: the query `zz` matches no label of the one-node graph. -/
theorem C8_emptySearchResult_witness :
    visibleData true 10 100 ["condition"] ["treats"] [] "zz"
      VisibilityMode.important 1 [nW] [] = ([], []) :=
  (C8_emptySearchResult true 10 100 ["condition"] ["treats"] [] "zz"
    VisibilityMode.important 1 [nW] [] (by decide) (by decide)).1

end HealuiGraph
